import Mathlib

/-!
# challengerbot: command dispatch and flag validation

A shallow embedding of `main.go`.  Go strings are byte sequences, so a string is a
list of bytes; every index, length and slice below is a byte index, as in Go.
The handlers are functions from the configuration, the platform state they read
and the inbound message to the list of outbound gateway calls they issue, together
with a flag telling whether the handler panicked.
-/

set_option autoImplicit false

namespace ChallengerBot

/-! ## Strings -/

/-- A byte of a Go string. -/
abbrev Byte := Nat

/-- A Go string: its sequence of bytes. -/
abbrev GoString := List Byte

/-- The bytes of an ASCII literal. -/
def str (s : String) : GoString := s.data.map Char.toNat

/-- Go `strings.Index(s, c)` for a one-byte separator: the index of the first
occurrence of `c`, or `-1`. -/
def index : GoString → Byte → Int
  | [], _ => -1
  | b :: rest, c =>
    if b = c then 0
    else
      let i := index rest c
      if i < 0 then -1 else i + 1

/-- Go `strings.LastIndex(s, c)` for a one-byte separator: the index of the last
occurrence of `c`, or `-1`. -/
def lastIndex : GoString → Byte → Int
  | [], _ => -1
  | b :: rest, c =>
    let i := lastIndex rest c
    if 0 ≤ i then i + 1
    else if b = c then 0 else -1

/-- Go slice expression `s[lo:hi]` for indices already known to be in range. -/
def slice (s : GoString) (lo hi : Nat) : GoString := (s.take hi).drop lo

/-- Go `strings.HasPrefix`. -/
def hasPrefix (s pre : GoString) : Bool := pre.isPrefixOf s

/-- The cutset `" \t\n\r"` of the dispatcher. -/
def isCutset (b : Byte) : Bool := b == 32 || b == 9 || b == 10 || b == 13

/-- Go `strings.Trim(s, " \t\n\r")`. -/
def trim (s : GoString) : GoString :=
  ((s.dropWhile isCutset).reverse.dropWhile isCutset).reverse

/-- Go `strings.SplitN(s, " ", 2)`: cut at the first space, if there is one. -/
def splitN2 : GoString → List GoString
  | [] => [[]]
  | b :: rest =>
    if b = 32 then [[], rest]
    else
      match splitN2 rest with
      | [w] => [b :: w]
      | w :: ws => (b :: w) :: ws
      | [] => [[b]]

/-- Go `strings.Split(s, sep)` for a one-byte separator. -/
def split (sep : Byte) : GoString → List GoString
  | [] => [[]]
  | b :: rest =>
    if b = sep then [] :: split sep rest
    else
      match split sep rest with
      | w :: ws => (b :: w) :: ws
      | [] => [[b]]

/-- Go `strings.Join(elems, sep)` for a one-byte separator. -/
def join (sep : Byte) : List GoString → GoString
  | [] => []
  | [w] => w
  | w :: ws => w ++ sep :: join sep ws

/-- Lower-casing of one ASCII byte. -/
def asciiLowerByte (b : Byte) : Byte := if 65 ≤ b ∧ b ≤ 90 then b + 32 else b

/-- Go `strings.ToLower` on a string of ASCII bytes. -/
def asciiToLower (s : GoString) : GoString := s.map asciiLowerByte

/-- Decimal rendering of a natural number (`%d`). -/
def decimal (n : Nat) : GoString := (Nat.toDigits 10 n).map Char.toNat

/-! ## strconv -/

/-- The value of a digit byte in the given base, as `strconv` reads it:
`0`-`9`, then letters of either case. -/
def digitValue (base : Nat) (b : Byte) : Option Nat :=
  if 48 ≤ b ∧ b ≤ 57 then
    if b - 48 < base then some (b - 48) else none
  else if 97 ≤ b ∧ b ≤ 122 then
    if b - 97 + 10 < base then some (b - 97 + 10) else none
  else if 65 ≤ b ∧ b ≤ 90 then
    if b - 65 + 10 < base then some (b - 65 + 10) else none
  else none

/-- The number written by a sequence of digits, most significant first, on top of
the accumulator `acc`; `none` when a byte is not a digit of the base. -/
def digitsValue (base : Nat) : Nat → GoString → Option Nat
  | acc, [] => some acc
  | acc, b :: rest =>
    match digitValue base b with
    | none => none
    | some d => digitsValue base (acc * base + d) rest

/-- Go `strconv.ParseUint(s, base, bitSize)` for an explicit base: a syntax error
on the empty string or a non-digit, a range error when the value needs more than
`bitSize` bits; `none` stands for either error. -/
def parseUint (s : GoString) (base bitSize : Nat) : Option Nat :=
  match s with
  | [] => none
  | _ =>
    match digitsValue base 0 s with
    | none => none
    | some v => if v < 2 ^ bitSize then some v else none

/-- The integer a token writes in decimal: an optional sign, then one or more
digits; `none` for anything else.  This is what `strconv.Atoi` reads before its
range check. -/
def decimalValue (s : GoString) : Option Int :=
  match s with
  | [] => none
  | b :: rest =>
    let body := if b = 45 ∨ b = 43 then rest else s
    match body with
    | [] => none
    | _ =>
      match digitsValue 10 0 body with
      | none => none
      | some v => if b = 45 then some (-(v : Int)) else some (v : Int)

/-- Go `strconv.Atoi` with a 64-bit `int`: a syntax error when the token is not a
decimal integer, a range error when its value is outside `[-2^63, 2^63)`; `none`
stands for either error. -/
def atoi (s : GoString) : Option Int :=
  match decimalValue s with
  | none => none
  | some v => if -(2 : Int) ^ 63 ≤ v ∧ v < (2 : Int) ^ 63 then some v else none

/-- The 64-bit `int` an integer wraps around to. -/
def wrapInt64 (x : Int) : Int := (x + 2 ^ 63) % 2 ^ 64 - 2 ^ 63

/-! ## path/filepath (Unix) -/

/-- The element loop of Go `filepath.Clean`: `stack` holds the elements written so
far, last one first.  Empty and `.` elements are skipped; `..` removes the last real
element, is kept when the path is relative and nothing can be removed, and is
dropped at the root. -/
def cleanStep (rooted : Bool) (stack : List GoString) (e : GoString) : List GoString :=
  if e = [] ∨ e = [46] then stack
  else if e = [46, 46] then
    match stack with
    | top :: below =>
      if top ≠ [46, 46] then below
      else if rooted then stack else e :: stack
    | [] => if rooted then [] else [e]
  else e :: stack

/-- Go `filepath.Clean` with `/` as the separator. -/
def filepathClean (path : GoString) : GoString :=
  match path with
  | [] => [46]
  | b :: _ =>
    let rooted : Bool := b == 47
    let body := join 47 ((split 47 path).foldl (cleanStep rooted) []).reverse
    if rooted then 47 :: body
    else if body = [] then [46] else body

/-- Go `filepath.Join`: leading empty elements are ignored, the rest are joined with
`/` and cleaned. -/
def filepathJoin : List GoString → GoString
  | [] => []
  | e :: es => if e = [] then filepathJoin es else filepathClean (join 47 (e :: es))

/-- Go `filepath.Abs` of a relative path: joined to the working directory; the
empty string when the working directory cannot be read (`wd = none`). -/
def filepathAbs (wd : Option GoString) (path : GoString) : GoString :=
  match wd with
  | none => []
  | some d => filepathJoin [d, path]

/-! ## Data model -/

/-- The `Challenge` struct. -/
structure Challenge where
  id : GoString
  name : GoString
  description : GoString
  hints : List GoString
  flag : GoString
  role : GoString
  fileName : GoString
  fileType : GoString
  link : GoString
  color : GoString
deriving DecidableEq

/-- The `BotConfig` struct.  The `Roles` map is only ever read with the one-value
form, so it is the function giving `""` on a missing key. -/
structure BotConfig where
  discordToken : GoString
  discordGuild : GoString
  discordChannel : GoString
  defaultColor : GoString
  commandString : GoString
  roles : GoString → GoString
  challenges : List Challenge

/-- The fields of `discordgo.MessageCreate` that the handlers read. -/
structure MessageCreate where
  authorID : GoString
  channelID : GoString
  content : GoString
deriving DecidableEq

/-- `discordgo.ChannelTypeDM`. -/
def channelTypeDM : Nat := 1

/-- What the handlers read from outside the configuration: the session, the role
name cache filled at start-up, the file system, and the two standard-library
functions that depend on Unicode tables, which are kept abstract. -/
structure Env where
  /-- Go `strings.ToLower`. -/
  toLower : GoString → GoString
  /-- Go `utf8.RuneCountInString`, the width `%-18s` pads to. -/
  runeCount : GoString → Nat
  /-- The bot user id, `s.State.User.ID`. -/
  botID : GoString
  /-- The answer of `s.Channel(id)`: the channel type, or `none` on error (a nil
  channel). -/
  channelType : GoString → Option Nat
  /-- The answer of `s.UserChannelCreate(id)`: the id of the direct channel, or
  `none` on error. -/
  userChannelCreate : GoString → Option GoString
  /-- The global `guildRoleNames`, `""` on a missing key. -/
  guildRoleNames : GoString → GoString
  /-- The working directory, `none` when `os.Getwd` fails. -/
  wd : Option GoString
  /-- Whether `os.Open` of the path succeeds. -/
  canOpen : GoString → Bool

/-- The fields of `discordgo.MessageEmbed` that are set; colour `0` is the zero
value of the field. -/
structure MessageEmbed where
  title : GoString
  description : GoString
  url : GoString
  color : Nat
deriving DecidableEq

/-- A `discordgo.File`; `path` is the file its reader was opened on. -/
structure File where
  name : GoString
  contentType : GoString
  path : GoString
deriving DecidableEq

/-- A `discordgo.MessageSend` with its embed and optional file. -/
structure MessageSend where
  embed : MessageEmbed
  file : Option File
deriving DecidableEq

/-- The outbound calls of the handlers on the session. -/
inductive Call where
  | channelMessageSend (channelID content : GoString)
  | channelMessageSendComplex (channelID : GoString) (message : MessageSend)
  | userChannelCreate (recipientID : GoString)
  | guildMemberRoleAdd (guildID userID roleID : GoString)
deriving DecidableEq

/-- What a handler did: the outbound calls it issued, in order, and whether it
ended in a panic. -/
structure Outcome where
  calls : List Call
  aborted : Bool
deriving DecidableEq

/-- Nothing issued, normal return. -/
def Outcome.done : Outcome := ⟨[], false⟩

/-- A panic before any call. -/
def Outcome.panic : Outcome := ⟨[], true⟩

/-- Sequencing: the second part runs only when the first returned normally. -/
def Outcome.andThen (a b : Outcome) : Outcome :=
  if a.aborted then a else ⟨a.calls ++ b.calls, b.aborted⟩

/-! ## Handlers -/

/-- The function `sendDM`: open a direct channel with the user and, when that
succeeds, send the message to it. -/
def sendDM (env : Env) (userId message : GoString) : Outcome :=
  match env.userChannelCreate userId with
  | some cid => ⟨[Call.userChannelCreate userId, Call.channelMessageSend cid message], false⟩
  | none => ⟨[Call.userChannelCreate userId], false⟩

/-- The function `getChallengeById` over the catalog: the first entry with that id,
or the not-found error with its message. -/
def getChallengeById : List Challenge → GoString → Except GoString Challenge
  | [], id =>
    Except.error (str "Could not find challenge with id \x27" ++ id ++ str "\x27\n")
  | v :: rest, id => if v.id = id then Except.ok v else getChallengeById rest id

/-- The verb `%-18s`: padded with spaces on the right to 18 runes. -/
def padRight18 (env : Env) (s : GoString) : GoString :=
  s ++ List.replicate (18 - env.runeCount s) 32

/-- The function `commandListChallenges`. -/
def commandListChallenges (env : Env) (cfg : BotConfig) (m : MessageCreate) : Outcome :=
  let body := (cfg.challenges.map fun v =>
    padRight18 env (str "[" ++ v.id ++ str "]") ++ str " " ++ v.name ++ str "\n").flatten
  ⟨[Call.channelMessageSend m.channelID (str "\x60\x60\x60" ++ body ++ str "\x60\x60\x60")], false⟩

/-- Lines 183-192 of `commandDisplayChallenge`: the colour of the embed for the
challenge colour `color`, or `none` when a slice expression panics.  The default
colour replaces an empty one; a non-empty colour whose lower-casing starts with
`0x` is parsed from its third byte on as a 32-bit hexadecimal number, and a parse
error leaves the colour at zero. -/
def embedColor (env : Env) (cfg : BotConfig) (color : GoString) : Option Nat :=
  let color := if color = [] then cfg.defaultColor else color
  if color = [] then some 0
  else
    let low := env.toLower color
    if low.length < 2 then none
    else if slice low 0 2 = str "0x" then
      if color.length < 2 then none
      else
        match parseUint (color.drop 2) 16 32 with
        | some c => some c
        | none => some 0
    else some 0

/-- Lines 198-216 of `commandDisplayChallenge`: the file of the message for a
challenge, `Except.error ()` standing for the panic of the containment check. -/
def attachment (env : Env) (challenge : Challenge) : Except Unit (Option File) :=
  if challenge.fileName ≠ [] ∧ challenge.fileType ≠ [] then
    let basePath := filepathAbs env.wd (str "./files")
    let file := filepathJoin [basePath, challenge.fileName]
    if file.length ≤ basePath.length ∨ slice file 0 basePath.length ≠ basePath then
      Except.error ()
    else if env.canOpen file then
      Except.ok (some ⟨challenge.fileName, challenge.fileType, file⟩)
    else Except.ok none
  else Except.ok none

/-- Lines 177-218 of `commandDisplayChallenge`: the message for a challenge that
was found. -/
def displayChallenge (env : Env) (cfg : BotConfig) (m : MessageCreate)
    (challenge : Challenge) : Outcome :=
  let description :=
    str "This Challenge unlocks the **" ++ env.guildRoleNames (cfg.roles challenge.role)
      ++ str "** role.\n\n" ++ challenge.description
  match embedColor env cfg challenge.color with
  | none => Outcome.panic
  | some color =>
    match attachment env challenge with
    | Except.error _ => Outcome.panic
    | Except.ok file =>
      ⟨[Call.channelMessageSendComplex m.channelID
          ⟨⟨challenge.name, description, challenge.link, color⟩, file⟩], false⟩

/-- The function `commandDisplayChallenge`. -/
def commandDisplayChallenge (env : Env) (cfg : BotConfig) (m : MessageCreate)
    (args : List GoString) : Outcome :=
  match args with
  | [_, arg] =>
    match getChallengeById cfg.challenges (env.toLower arg) with
    | Except.error _ => Outcome.done
    | Except.ok challenge => displayChallenge env cfg m challenge
  | _ => Outcome.done

/-- The loop of `checkFlag` over the catalog. -/
def checkFlagLoop (env : Env) (cfg : BotConfig) (m : MessageCreate) (submittedFlag : GoString) :
    List Challenge → List Call
  | [] => []
  | v :: rest =>
    if v.flag = submittedFlag then
      let newRoleID := cfg.roles v.role
      let roleName := env.guildRoleNames newRoleID
      if roleName ≠ [] then
        Call.guildMemberRoleAdd cfg.discordGuild m.authorID newRoleID ::
          Call.channelMessageSend m.channelID
            (str "You\x27ve unlocked the " ++ roleName ++ str " role.") ::
          checkFlagLoop env cfg m submittedFlag rest
      else checkFlagLoop env cfg m submittedFlag rest
    else checkFlagLoop env cfg m submittedFlag rest

/-- The function `checkFlag`. -/
def checkFlag (env : Env) (cfg : BotConfig) (m : MessageCreate) (submittedFlag : GoString) :
    Outcome :=
  ⟨checkFlagLoop env cfg m submittedFlag cfg.challenges, false⟩

/-- Decimal rendering of an `int` (`%d`). -/
def decimalInt (i : Int) : GoString :=
  if i < 0 then 45 :: decimal i.natAbs else decimal i.natAbs

/-- Lines 247-260 of `commandHint`: the index `hID` after the clamp, for the words
of the argument and the number of hints. -/
def hintIndex (words : List GoString) (count : Nat) : Int :=
  let hID : Int :=
    match words with
    | _ :: token :: _ =>
      match atoi token with
      | some v => wrapInt64 (v - 1)
      | none => 0
    | _ => 0
  if hID < 0 then 0
  else if hID ≥ count then (count : Int) - 1
  else hID

/-- The function `commandHint`.  The index expression `challenge.Hints[hID]` panics
when `hID` is out of range. -/
def commandHint (env : Env) (cfg : BotConfig) (m : MessageCreate) (args : List GoString) :
    Outcome :=
  match args with
  | [_, arg] =>
    let words := split 32 (env.toLower arg)
    match words with
    | [] => Outcome.panic
    | id :: _ =>
      match getChallengeById cfg.challenges id with
      | Except.error _ => Outcome.done
      | Except.ok challenge =>
        if challenge.hints.length = 0 then
          sendDM env m.authorID (str "[" ++ challenge.name ++ str "] Has no hints.")
        else
          let hID := hintIndex words challenge.hints.length
          if hID < 0 ∨ hID ≥ challenge.hints.length then Outcome.panic
          else
            match challenge.hints.get? hID.toNat with
            | none => Outcome.panic
            | some hint =>
              sendDM env m.authorID
                (str "Hint " ++ decimalInt (hID + 1) ++ str " of "
                  ++ decimal challenge.hints.length ++ str " for " ++ challenge.name
                  ++ str "\n||" ++ hint ++ str "||")
  | _ => Outcome.done

/-- The function `commandHelp`. -/
def commandHelp (cfg : BotConfig) (m : MessageCreate) : Outcome :=
  let cstring := cfg.commandString
  ⟨[Call.channelMessageSend m.channelID
      (str "\x60\x60\x60The following commands are supported:\n"
        ++ cstring ++ str "challenges - Will display a list of challenge IDs and their titles\n"
        ++ cstring ++ str "challenge <id> - Will display all the information you need to know to get started on the challenge\n"
        ++ cstring ++ str "hint <id> [number] - If you do not provide a [number] the first hint for the challenge will be displayed\n"
        ++ cstring ++ str "commands - This...\n\nRoles can be obtained by submitting flags through a DM to this account.\nTo submit a flag send a DM containing only the flag in the form of FLAG\x7bs0me_flag_h3re\x7d to the bot\n\nDO NOT for any reason attempt to submit a flag through any public chat. The flags are not to be shared.\n\x60\x60\x60")],
    false⟩

/-- Lines 106-110 of `messageCreate`: the argument of the `checkFlag` call of the
direct-message branch, `none` when the call is not made. -/
def submission (content : GoString) : Option GoString :=
  let start := index content 123
  let stop := lastIndex content 125
  if start > -1 ∧ stop > start + 2 then
    some (slice content (start + 1).toNat stop.toNat)
  else none

/-- Lines 118-134 of `messageCreate`: the command dispatch.  Indexing `info[0]`
panics on an empty slice. -/
def dispatch (env : Env) (cfg : BotConfig) (m : MessageCreate) : Outcome :=
  if hasPrefix m.content cfg.commandString then
    match splitN2 (trim (m.content.drop cfg.commandString.length)) with
    | [] => Outcome.panic
    | first :: rest =>
      let info := env.toLower first :: rest
      let command := env.toLower first
      if command = str "ping" then
        ⟨[Call.channelMessageSend m.channelID (str "Pong!")], false⟩
      else if command = str "challenges" then commandListChallenges env cfg m
      else if command = str "challenge" then commandDisplayChallenge env cfg m info
      else if command = str "hint" then commandHint env cfg m info
      else if command = str "commands" then commandHelp cfg m
      else Outcome.done
  else Outcome.done

/-- The function `messageCreate`.  A failed channel lookup leaves a nil channel,
whose `Type` field cannot be read. -/
def messageCreate (env : Env) (cfg : BotConfig) (m : MessageCreate) : Outcome :=
  if m.authorID = env.botID then Outcome.done
  else
    match env.channelType m.channelID with
    | none => Outcome.panic
    | some kind =>
      if kind = channelTypeDM then
        match submission m.content with
        | some flag => (checkFlag env cfg m flag).andThen (dispatch env cfg m)
        | none => dispatch env cfg m
      else if cfg.discordChannel ≠ [] ∧ cfg.discordChannel ≠ m.channelID then Outcome.done
      else dispatch env cfg m

/-! ## A concrete platform for evaluation -/

/-- An environment over ASCII text: lower-casing and rune count are those of ASCII
strings, the bot is user `bot`, channel `dm` is a direct channel and every other
channel a guild text channel, the direct channel of a user is `dm`, the role cache
holds `R1` as `Web Solver`, the working directory is `/srv` and every file opens. -/
def asciiEnv : Env where
  toLower := asciiToLower
  runeCount := List.length
  botID := str "bot"
  channelType := fun c => if c = str "dm" then some channelTypeDM else some 0
  userChannelCreate := fun _ => some (str "dm")
  guildRoleNames := fun r => if r = str "R1" then str "Web Solver" else []
  wd := some (str "/srv")
  canOpen := fun _ => true

/-- A challenge `web1` with three hints and role key `web`, for a given flag. -/
def webChallenge (flag : GoString) : Challenge where
  id := str "web1"
  name := str "Web One"
  description := str "Find the hidden page."
  hints := [str "look", str "closer", str "deeper"]
  flag := flag
  role := str "web"
  fileName := []
  fileType := []
  link := []
  color := []

/-- A configuration for guild `G` with command prefix `!`, no restricted channel, no
default colour, the role map `web -> R1` and a catalog of one challenge. -/
def configOf (challenge : Challenge) : BotConfig where
  discordToken := str "token"
  discordGuild := str "G"
  discordChannel := []
  defaultColor := []
  commandString := str "!"
  roles := fun k => if k = str "web" then str "R1" else []
  challenges := [challenge]

/-! ## Lemmas on the string functions -/

theorem index_cons (b : Byte) (rest : GoString) (c : Byte) :
    index (b :: rest) c
      = if b = c then 0 else if index rest c < 0 then -1 else index rest c + 1 := rfl

theorem lastIndex_cons (b : Byte) (rest : GoString) (c : Byte) :
    lastIndex (b :: rest) c
      = if 0 ≤ lastIndex rest c then lastIndex rest c + 1 else if b = c then 0 else -1 := rfl

theorem index_ge (s : GoString) (c : Byte) : -1 ≤ index s c := by
  induction s with
  | nil => simp [index]
  | cons b rest ih =>
    rw [index_cons]
    split_ifs <;> omega

theorem index_append_of_not_mem (pre rest : GoString) (c : Byte) (h : c ∉ pre) :
    index (pre ++ c :: rest) c = pre.length := by
  induction pre with
  | nil => simp [index]
  | cons b pre ih =>
    have hb : b ≠ c := fun e => h (by simp [e])
    have hc : c ∉ pre := fun e => h (by simp [e])
    rw [List.cons_append, index_cons, if_neg hb, ih hc, List.length_cons]
    split_ifs <;> omega

theorem index_decomp (s : GoString) (c : Byte) (h : 0 ≤ index s c) :
    ∃ pre rest, s = pre ++ c :: rest ∧ c ∉ pre ∧ index s c = pre.length := by
  induction s with
  | nil => simp [index] at h
  | cons b s ih =>
    by_cases hb : b = c
    · exact ⟨[], s, by simp [hb], by simp, by simp [index, hb]⟩
    · rw [index_cons, if_neg hb] at h ⊢
      by_cases hi : index s c < 0
      · simp [hi] at h
      · obtain ⟨pre, rest, hs, hpre, hlen⟩ := ih (by omega)
        refine ⟨b :: pre, rest, by simp [hs], ?_, ?_⟩
        · simp only [List.mem_cons, not_or]
          exact ⟨fun e => hb e.symm, hpre⟩
        · rw [if_neg hi, hlen, List.length_cons]
          omega

theorem index_neg_of_not_mem (s : GoString) (c : Byte) (h : c ∉ s) : index s c = -1 := by
  have h1 := index_ge s c
  by_contra hne
  obtain ⟨pre, rest, hs, _, _⟩ := index_decomp s c (by omega)
  exact h (by simp [hs])

theorem lastIndex_ge (s : GoString) (c : Byte) : -1 ≤ lastIndex s c := by
  induction s with
  | nil => simp [lastIndex]
  | cons b rest ih =>
    rw [lastIndex_cons]
    split_ifs <;> omega

theorem lastIndex_neg_of_not_mem (s : GoString) (c : Byte) (h : c ∉ s) :
    lastIndex s c = -1 := by
  induction s with
  | nil => simp [lastIndex]
  | cons b rest ih =>
    have hb : b ≠ c := fun e => h (by simp [e])
    have hc : c ∉ rest := fun e => h (by simp [e])
    rw [lastIndex_cons, ih hc, if_neg hb]
    simp

theorem lastIndex_nonneg_of_mem (s : GoString) (c : Byte) (h : c ∈ s) : 0 ≤ lastIndex s c := by
  induction s with
  | nil => simp at h
  | cons b rest ih =>
    rw [lastIndex_cons]
    by_cases hr : c ∈ rest
    · have := ih hr
      rw [if_pos this]
      omega
    · have hb : b = c := by
        rcases List.mem_cons.mp h with e | e
        · exact e.symm
        · exact absurd e hr
      rw [lastIndex_neg_of_not_mem rest c hr, if_pos hb]
      simp

theorem lastIndex_append_of_not_mem (init post : GoString) (c : Byte) (h : c ∉ post) :
    lastIndex (init ++ c :: post) c = init.length := by
  induction init with
  | nil => simp [lastIndex_cons, lastIndex_neg_of_not_mem post c h]
  | cons b init ih =>
    rw [List.cons_append, lastIndex_cons, ih, List.length_cons]
    split_ifs <;> omega

theorem lastIndex_decomp (s : GoString) (c : Byte) (h : 0 ≤ lastIndex s c) :
    ∃ init post, s = init ++ c :: post ∧ c ∉ post ∧ lastIndex s c = init.length := by
  have hmem : c ∈ s := by
    by_contra hn
    rw [lastIndex_neg_of_not_mem s c hn] at h
    omega
  clear h
  induction s with
  | nil => simp at hmem
  | cons b s ih =>
    by_cases hs : c ∈ s
    · obtain ⟨init, post, e, hpost, hlen⟩ := ih hs
      refine ⟨b :: init, post, by simp [e], hpost, ?_⟩
      have := lastIndex_nonneg_of_mem s c hs
      rw [lastIndex_cons, if_pos this, hlen, List.length_cons]
      omega
    · have hb : b = c := by
        rcases List.mem_cons.mp hmem with e | e
        · exact e.symm
        · exact absurd e hs
      refine ⟨[], s, by simp [hb], hs, ?_⟩
      rw [lastIndex_cons, lastIndex_neg_of_not_mem s c hs, if_pos hb]
      simp

theorem slice_between (pre mid post : GoString) (x y : Byte) :
    slice (pre ++ x :: (mid ++ y :: post)) (pre.length + 1) (pre.length + 1 + mid.length)
      = mid := by
  have e : pre ++ x :: (mid ++ y :: post) = (pre ++ [x] ++ mid) ++ (y :: post) := by simp
  have l : pre.length + 1 + mid.length = (pre ++ [x] ++ mid).length := by simp; omega
  unfold slice
  rw [e, l, List.take_left]
  have l2 : pre.length + 1 = (pre ++ [x]).length := by simp
  rw [l2, List.drop_left]

/-- The call of `checkFlag` is made with `f` exactly when the content is some text
without `{`, then `{`, then `f` of at least two bytes, then `}`, then some text
without `}`. -/
theorem submission_eq_some_iff (content f : GoString) :
    submission content = some f ↔
      ∃ pre post, content = pre ++ 123 :: (f ++ 125 :: post) ∧ 123 ∉ pre ∧ 125 ∉ post
        ∧ 2 ≤ f.length := by
  constructor
  · intro h
    unfold submission at h
    simp only at h
    split_ifs at h with hc
    obtain ⟨h1, h2⟩ := hc
    obtain ⟨pre, rest, e1, hpre, l1⟩ := index_decomp content 123 (by omega)
    obtain ⟨init, post, e2, hpost, l2⟩ := lastIndex_decomp content 125 (by omega)
    rw [l1, l2] at h2
    have hlt : pre.length < init.length := by omega
    have e3 : pre ++ 123 :: rest = init ++ 125 :: post := by rw [← e1, ← e2]
    obtain ⟨mid, hmid⟩ : ∃ mid, init = pre ++ 123 :: mid := by
      rcases List.append_eq_append_iff.mp e3 with ⟨a, ha, hb⟩ | ⟨a, ha, hb⟩
      · cases a with
        | nil => simp at ha; simp [ha] at hlt
        | cons x a =>
          simp only [List.cons_append, List.cons.injEq] at hb
          exact ⟨a, by rw [ha, hb.1]⟩
      · have : pre.length = init.length + a.length := by rw [ha]; simp
        omega
    have hcontent : content = pre ++ 123 :: (mid ++ 125 :: post) := by
      rw [e2, hmid]; simp
    have n1 : (index content 123 + 1).toNat = pre.length + 1 := by rw [l1]; omega
    have n2 : (lastIndex content 125).toNat = pre.length + 1 + mid.length := by
      rw [l2, hmid]; simp; omega
    rw [n1, n2, hcontent, slice_between] at h
    have hf : mid = f := Option.some.inj h
    subst hf
    refine ⟨pre, post, hcontent, hpre, hpost, ?_⟩
    rw [hmid] at h2
    simp at h2
    omega
  · rintro ⟨pre, post, e, hpre, hpost, hlen⟩
    have l1 : index content 123 = pre.length := by
      rw [e]; exact index_append_of_not_mem pre _ 123 hpre
    have l2 : lastIndex content 125 = (pre ++ 123 :: f).length := by
      have : content = (pre ++ 123 :: f) ++ 125 :: post := by rw [e]; simp
      rw [this]; exact lastIndex_append_of_not_mem _ post 125 hpost
    have n1 : (index content 123 + 1).toNat = pre.length + 1 := by rw [l1]; omega
    have n2 : (lastIndex content 125).toNat = pre.length + 1 + f.length := by
      rw [l2]; simp; omega
    have hcond : index content 123 > -1 ∧ lastIndex content 125 > index content 123 + 2 := by
      rw [l1, l2]
      simp only [List.length_append, List.length_cons]
      constructor <;> omega
    unfold submission
    simp only
    rw [if_pos hcond, n1, n2, e, slice_between]

/-! ## Lemmas on the handlers -/

theorem andThen_calls_of_not_aborted (a b : Outcome) (h : a.aborted = false) :
    (a.andThen b).calls = a.calls ++ b.calls := by
  simp [Outcome.andThen, h]

theorem checkFlagLoop_eq (env : Env) (cfg : BotConfig) (m : MessageCreate) (s : GoString)
    (l : List Challenge) :
    checkFlagLoop env cfg m s l
      = (l.filter fun v =>
            decide (v.flag = s) && decide (env.guildRoleNames (cfg.roles v.role) ≠ [])).flatMap
          fun v =>
            [Call.guildMemberRoleAdd cfg.discordGuild m.authorID (cfg.roles v.role),
             Call.channelMessageSend m.channelID
              (str "You\x27ve unlocked the " ++ env.guildRoleNames (cfg.roles v.role)
                ++ str " role.")] := by
  induction l with
  | nil => rfl
  | cons v rest ih =>
    by_cases hf : v.flag = s
    · by_cases hr : env.guildRoleNames (cfg.roles v.role) = []
      · simp [checkFlagLoop, hf, hr, ih, List.filter_cons]
      · simp [checkFlagLoop, hf, hr, ih, List.filter_cons]
    · simp [checkFlagLoop, hf, ih, List.filter_cons]

theorem dispatch_of_no_command_string (env : Env) (cfg : BotConfig) (m : MessageCreate)
    (h : hasPrefix m.content cfg.commandString = false) :
    dispatch env cfg m = Outcome.done := by
  simp [dispatch, h]

theorem checkFlagLoop_mem (env : Env) (cfg : BotConfig) (m : MessageCreate) (s : GoString)
    (l : List Challenge) (v : Challenge) (hv : v ∈ l) (hf : v.flag = s)
    (hr : env.guildRoleNames (cfg.roles v.role) ≠ []) :
    Call.guildMemberRoleAdd cfg.discordGuild m.authorID (cfg.roles v.role)
        ∈ checkFlagLoop env cfg m s l
    ∧ Call.channelMessageSend m.channelID
          (str "You\x27ve unlocked the " ++ env.guildRoleNames (cfg.roles v.role)
            ++ str " role.")
        ∈ checkFlagLoop env cfg m s l := by
  rw [checkFlagLoop_eq]
  constructor
  · refine List.mem_flatMap.mpr ⟨v, List.mem_filter.mpr ⟨hv, by simp [hf, hr]⟩, by simp⟩
  · refine List.mem_flatMap.mpr ⟨v, List.mem_filter.mpr ⟨hv, by simp [hf, hr]⟩, by simp⟩

/-- The content `FLAG{test}` names no command, whatever the command prefix. -/
theorem dispatch_flag_test (env : Env) (cfg : BotConfig) (m : MessageCreate)
    (hlow : ∀ s : GoString, (∀ b ∈ s, b < 128) → env.toLower s = asciiToLower s)
    (hcontent : m.content = str "FLAG\x7btest\x7d") :
    dispatch env cfg m = Outcome.done := by
  by_cases hp : hasPrefix m.content cfg.commandString = false
  · exact dispatch_of_no_command_string env cfg m hp
  · have hp1 : hasPrefix m.content cfg.commandString = true := by simpa using hp
    have hpre : cfg.commandString <+: m.content := List.isPrefixOf_iff_prefix.mp hp1
    have hlen : cfg.commandString.length ≤ 10 := by
      have := hpre.length_le
      rw [hcontent] at this
      exact this
    have e1 : ∀ n, n ≤ 10 →
        splitN2 (trim ((str "FLAG\x7btest\x7d").drop n)) = [(str "FLAG\x7btest\x7d").drop n] := by
      decide
    have e2 : ∀ n, n ≤ 10 →
        asciiToLower ((str "FLAG\x7btest\x7d").drop n) ≠ str "ping"
        ∧ asciiToLower ((str "FLAG\x7btest\x7d").drop n) ≠ str "challenges"
        ∧ asciiToLower ((str "FLAG\x7btest\x7d").drop n) ≠ str "challenge"
        ∧ asciiToLower ((str "FLAG\x7btest\x7d").drop n) ≠ str "hint"
        ∧ asciiToLower ((str "FLAG\x7btest\x7d").drop n) ≠ str "commands" := by
      decide
    have e3 : ∀ b ∈ (str "FLAG\x7btest\x7d").drop cfg.commandString.length, b < 128 := by
      intro b hb
      have h128 : ∀ b ∈ str "FLAG\x7btest\x7d", b < 128 := by decide
      exact h128 b (List.mem_of_mem_drop hb)
    obtain ⟨h1, h2, h3, h4, h5⟩ := e2 _ hlen
    unfold dispatch
    rw [if_pos hp1, hcontent, e1 _ hlen]
    simp only [hlow _ e3, if_neg h1, if_neg h2, if_neg h3, if_neg h4, if_neg h5]

theorem getChallengeById_ok_iff (l : List Challenge) (id : GoString) (e : Challenge) :
    getChallengeById l id = Except.ok e ↔
      ∃ pre post, l = pre ++ e :: post ∧ e.id = id ∧ ∀ x ∈ pre, x.id ≠ id := by
  induction l with
  | nil => simp [getChallengeById]
  | cons v rest ih =>
    by_cases hv : v.id = id
    · simp only [getChallengeById, if_pos hv]
      constructor
      · intro h
        have hve : v = e := by injection h
        subst hve
        exact ⟨[], rest, rfl, hv, by simp⟩
      · rintro ⟨pre, post, hl, _, hpre⟩
        cases pre with
        | nil =>
          simp only [List.nil_append, List.cons.injEq] at hl
          rw [hl.1]
        | cons x pre =>
          simp only [List.cons_append, List.cons.injEq] at hl
          exact absurd hv (hl.1 ▸ hpre x (by simp))
    · simp only [getChallengeById, if_neg hv, ih]
      constructor
      · rintro ⟨pre, post, hl, he, hpre⟩
        refine ⟨v :: pre, post, by simp [hl], he, ?_⟩
        intro x hx
        rcases List.mem_cons.mp hx with h | h
        · rw [h]; exact hv
        · exact hpre x h
      · rintro ⟨pre, post, hl, he, hpre⟩
        cases pre with
        | nil =>
          simp only [List.nil_append, List.cons.injEq] at hl
          exact absurd he (hl.1 ▸ hv)
        | cons x pre =>
          simp only [List.cons_append, List.cons.injEq] at hl
          exact ⟨pre, post, hl.2, he, fun y hy => hpre y (by simp [hy])⟩

theorem getChallengeById_error_iff (l : List Challenge) (id : GoString) :
    (∃ msg, getChallengeById l id = Except.error msg) ↔ ∀ x ∈ l, x.id ≠ id := by
  induction l with
  | nil => simp [getChallengeById]
  | cons v rest ih =>
    by_cases hv : v.id = id
    · simp [getChallengeById, hv]
    · simp [getChallengeById, hv, ih]

theorem asciiLowerByte_idem (b : Nat) : asciiLowerByte (asciiLowerByte b) = asciiLowerByte b := by
  unfold asciiLowerByte
  by_cases h : 65 ≤ b ∧ b ≤ 90
  · have h2 : ¬(65 ≤ b + 32 ∧ b + 32 ≤ 90) := by omega
    rw [if_pos h, if_neg h2]
  · rw [if_neg h, if_neg h]

theorem asciiToLower_idem (s : GoString) : asciiToLower (asciiToLower s) = asciiToLower s := by
  unfold asciiToLower
  rw [List.map_map]
  apply List.map_congr_left
  intro b _
  exact asciiLowerByte_idem b

theorem decimalInt_natCast (n : Nat) : decimalInt (n : Int) = decimal n := by
  unfold decimalInt
  have : ¬((n : Int) < 0) := by omega
  rw [if_neg this, Int.natAbs_ofNat]

theorem wrapInt64_of_range (x : Int) (h1 : -(2 : Int) ^ 63 ≤ x) (h2 : x < (2 : Int) ^ 63) :
    wrapInt64 x = x := by
  unfold wrapInt64
  norm_num at h1 h2 ⊢
  omega

theorem hintIndex_range (words : List GoString) (count : Nat) (h : 1 ≤ count) :
    0 ≤ hintIndex words count ∧ hintIndex words count < count := by
  unfold hintIndex
  simp only
  split_ifs <;> omega

theorem hintIndex_of_atoi_none (id token : GoString) (tail : List GoString) (count : Nat)
    (h : 1 ≤ count) (hnone : atoi token = none) :
    hintIndex (id :: token :: tail) count = 0 := by
  unfold hintIndex
  simp only [hnone]
  split_ifs <;> omega

theorem hintIndex_of_atoi_some (id token : GoString) (tail : List GoString) (count : Nat)
    (n : Int) (h : 1 ≤ count) (hsome : atoi token = some n) (hmin : -(2 : Int) ^ 63 < n)
    (hmax : n < (2 : Int) ^ 63) :
    hintIndex (id :: token :: tail) count + 1 = min (max n 1) count := by
  unfold hintIndex
  simp only [hsome]
  rw [wrapInt64_of_range (n - 1) (by omega) (by omega)]
  split_ifs <;> omega

theorem attachment_of_no_file (env : Env) (challenge : Challenge)
    (h : challenge.fileName = [] ∨ challenge.fileType = []) :
    attachment env challenge = Except.ok none := by
  unfold attachment
  rw [if_neg]
  rintro ⟨h1, h2⟩
  rcases h with h | h
  · exact h1 h
  · exact h2 h

theorem embedColor_eq (env : Env) (cfg : BotConfig) (color c : GoString)
    (hc : c = if color = [] then cfg.defaultColor else color)
    (hlen : c = [] ∨ (2 ≤ c.length ∧ 2 ≤ (env.toLower c).length)) :
    embedColor env cfg color
      = some (if slice (env.toLower c) 0 2 = str "0x"
          then (parseUint (c.drop 2) 16 32).getD 0 else 0) := by
  unfold embedColor
  simp only [← hc]
  rcases hlen with h | ⟨h1, h2⟩
  · subst h
    simp [parseUint]
  · have hne : c ≠ [] := by
      intro e
      rw [e] at h1
      simp at h1
    rw [if_neg hne, if_neg (by omega)]
    by_cases hx : slice (env.toLower c) 0 2 = str "0x"
    · rw [if_pos hx, if_pos hx, if_neg (by omega)]
      cases parseUint (List.drop 2 c) 16 32 <;> rfl
    · rw [if_neg hx, if_neg hx]

theorem parseUint_eq_some_iff (s : GoString) (base bitSize v : Nat) :
    parseUint s base bitSize = some v ↔
      s ≠ [] ∧ digitsValue base 0 s = some v ∧ v < 2 ^ bitSize := by
  cases s with
  | nil => simp [parseUint]
  | cons b rest =>
    unfold parseUint
    cases hd : digitsValue base 0 (b :: rest) with
    | none => simp
    | some w =>
      by_cases hw : w < 2 ^ bitSize
      · simp only [if_pos hw, Option.some.injEq, ne_eq, List.cons_ne_nil, not_false_eq_true,
          true_and]
        constructor
        · intro e; subst e; exact ⟨rfl, hw⟩
        · intro e; exact e.1
      · simp only [if_neg hw, Option.some.injEq, ne_eq, List.cons_ne_nil, not_false_eq_true,
          true_and]
        constructor
        · intro e; exact absurd e (by simp)
        · rintro ⟨e, hv⟩; subst e; exact absurd hv hw

theorem asciiLowerByte_eq_zero_digit (a : Nat) : asciiLowerByte a = 48 ↔ a = 48 := by
  show (if 65 ≤ a ∧ a ≤ 90 then a + 32 else a : Nat) = 48 ↔ a = 48
  by_cases h : 65 ≤ a ∧ a ≤ 90
  · rw [if_pos h]
    constructor <;> intro e <;> omega
  · rw [if_neg h]

theorem asciiLowerByte_eq_x (a : Nat) : asciiLowerByte a = 120 ↔ a = 120 ∨ a = 88 := by
  show (if 65 ≤ a ∧ a ≤ 90 then a + 32 else a : Nat) = 120 ↔ a = 120 ∨ a = 88
  by_cases h : 65 ≤ a ∧ a ≤ 90
  · rw [if_pos h]
    constructor <;> intro e <;> omega
  · rw [if_neg h]
    constructor <;> intro e <;> omega

theorem asciiToLower_hex_marker (c : GoString) :
    slice (asciiToLower c) 0 2 = str "0x" ↔
      ∃ digits, c = 48 :: 120 :: digits ∨ c = 48 :: 88 :: digits := by
  have e : str "0x" = [48, 120] := by decide
  rw [e]
  unfold slice asciiToLower
  match c with
  | [] => simp
  | [a] => simp
  | a :: b :: rest =>
    simp only [List.map_cons, List.take_succ_cons, List.take_zero, List.drop_zero,
      List.cons.injEq, and_true, asciiLowerByte_eq_zero_digit, asciiLowerByte_eq_x]
    constructor
    · rintro ⟨ha, hb | hb⟩
      · exact ⟨rest, Or.inl ⟨ha, hb, rfl⟩⟩
      · exact ⟨rest, Or.inr ⟨ha, hb, rfl⟩⟩
    · rintro ⟨digits, ⟨ha, hb, _⟩ | ⟨ha, hb, _⟩⟩
      · exact ⟨ha, Or.inl hb⟩
      · exact ⟨ha, Or.inr hb⟩

theorem sendDM_eq (env : Env) (userId message : GoString) :
    sendDM env userId message
      = ⟨Call.userChannelCreate userId ::
          (match env.userChannelCreate userId with
            | some cid => [Call.channelMessageSend cid message]
            | none => []),
         false⟩ := by
  unfold sendDM
  split <;> rfl

/-! ## The claims -/

/-- C3: in the direct-message branch of `messageCreate`, `checkFlag` is called exactly
when the content has a first `{` and its last `}` lies more than two bytes after it,
that is when the content is text without `{`, the brace, at least two bytes `f`, the
closing brace and text without `}`; the call is made once, with exactly `f`, before
the command dispatch, and otherwise only the dispatch runs.  The content
`here is FLAG{abc} ok` submits `abc`; `{}` and any content without `}` submit
nothing. -/
theorem messageCreate_dm_brace_extraction (env : Env) (cfg : BotConfig) (m : MessageCreate)
    (hauthor : m.authorID ≠ env.botID)
    (hdm : env.channelType m.channelID = some channelTypeDM) :
    (∀ f, submission m.content = some f ↔
        ∃ pre post, m.content = pre ++ 123 :: (f ++ 125 :: post) ∧ 123 ∉ pre ∧ 125 ∉ post
          ∧ 2 ≤ f.length)
    ∧ (∀ f, submission m.content = some f ↔
        -1 < index m.content 123 ∧ index m.content 123 + 2 < lastIndex m.content 125
          ∧ f = slice m.content (index m.content 123 + 1).toNat
                  (lastIndex m.content 125).toNat)
    ∧ (∀ f, submission m.content = some f →
        messageCreate env cfg m = (checkFlag env cfg m f).andThen (dispatch env cfg m))
    ∧ (submission m.content = none → messageCreate env cfg m = dispatch env cfg m)
    ∧ submission (str "here is FLAG\x7babc\x7d ok") = some (str "abc")
    ∧ submission (str "\x7b\x7d") = none
    ∧ (∀ content, 125 ∉ content → submission content = none) := by
  refine ⟨fun f => submission_eq_some_iff _ f, ?_, ?_, ?_, by decide, by decide, ?_⟩
  · intro f
    unfold submission
    simp only
    constructor
    · intro h
      split_ifs at h with hc
      exact ⟨hc.1, hc.2, (Option.some.inj h).symm⟩
    · rintro ⟨h1, h2, h3⟩
      rw [if_pos ⟨h1, h2⟩, h3]
  · intro f hf
    simp [messageCreate, hauthor, hdm, hf]
  · intro hf
    simp [messageCreate, hauthor, hdm, hf]
  · intro content hc
    unfold submission
    simp only
    rw [lastIndex_neg_of_not_mem content 125 hc]
    have := index_ge content 123
    rw [if_neg (by omega)]

theorem messageCreate_dm_brace_extraction_witness :
    submission (str "see FLAG\x7bs3cret\x7d") = some (str "s3cret")
    ∧ messageCreate asciiEnv (configOf (webChallenge (str "s3cret")))
        ⟨str "u", str "dm", str "see FLAG\x7bs3cret\x7d"⟩
      = ⟨[Call.guildMemberRoleAdd (str "G") (str "u") (str "R1"),
          Call.channelMessageSend (str "dm") (str "You\x27ve unlocked the Web Solver role.")],
         false⟩ := by
  have h := messageCreate_dm_brace_extraction asciiEnv (configOf (webChallenge (str "s3cret")))
    ⟨str "u", str "dm", str "see FLAG\x7bs3cret\x7d"⟩ (by decide) (by decide)
  refine ⟨by decide, ?_⟩
  rw [h.2.2.1 (str "s3cret") (by decide)]
  decide

/-- C4, amended: for every flag `f` of at least two bytes, a direct message with
content `FLAG{` followed by `f` followed by `}` makes `messageCreate` call `checkFlag`
with exactly `f`, and every challenge of the catalog that holds `f` and whose role
resolves to a name gets its role grant and its confirmation. -/
theorem messageCreate_wrapped_flag (env : Env) (cfg : BotConfig) (m : MessageCreate)
    (f : GoString) (hauthor : m.authorID ≠ env.botID)
    (hdm : env.channelType m.channelID = some channelTypeDM) (hlen : 2 ≤ f.length)
    (hcontent : m.content = str "FLAG\x7b" ++ f ++ str "\x7d") :
    submission m.content = some f
    ∧ messageCreate env cfg m = (checkFlag env cfg m f).andThen (dispatch env cfg m)
    ∧ ∀ v ∈ cfg.challenges, v.flag = f → env.guildRoleNames (cfg.roles v.role) ≠ [] →
        Call.guildMemberRoleAdd cfg.discordGuild m.authorID (cfg.roles v.role)
            ∈ (messageCreate env cfg m).calls
        ∧ Call.channelMessageSend m.channelID
              (str "You\x27ve unlocked the " ++ env.guildRoleNames (cfg.roles v.role)
                ++ str " role.")
            ∈ (messageCreate env cfg m).calls := by
  have hsub : submission m.content = some f := by
    rw [submission_eq_some_iff]
    refine ⟨str "FLAG", [], ?_, by decide, by simp, hlen⟩
    rw [hcontent]
    have e1 : str "FLAG\x7b" = str "FLAG" ++ [123] := by decide
    have e2 : str "\x7d" = [125] := by decide
    rw [e1, e2]
    simp
  have hmc : messageCreate env cfg m = (checkFlag env cfg m f).andThen (dispatch env cfg m) := by
    simp [messageCreate, hauthor, hdm, hsub]
  refine ⟨hsub, hmc, ?_⟩
  intro v hv hf hr
  rw [hmc, andThen_calls_of_not_aborted _ _ rfl]
  have := checkFlagLoop_mem env cfg m f cfg.challenges v hv hf hr
  exact ⟨List.mem_append_left _ this.1, List.mem_append_left _ this.2⟩

theorem messageCreate_wrapped_flag_witness :
    submission (str "FLAG\x7b" ++ str "s3cret" ++ str "\x7d") = some (str "s3cret")
    ∧ Call.guildMemberRoleAdd (str "G") (str "u") (str "R1")
        ∈ (messageCreate asciiEnv (configOf (webChallenge (str "s3cret")))
            ⟨str "u", str "dm", str "FLAG\x7b" ++ str "s3cret" ++ str "\x7d"⟩).calls := by
  have h := messageCreate_wrapped_flag asciiEnv (configOf (webChallenge (str "s3cret")))
    ⟨str "u", str "dm", str "FLAG\x7b" ++ str "s3cret" ++ str "\x7d"⟩ (str "s3cret")
    (by decide) (by decide) (by decide) rfl
  exact ⟨h.1, (h.2.2 (webChallenge (str "s3cret")) (by simp [configOf]) rfl (by decide)).1⟩

/-- C4 as stated fails for a flag of one byte: the catalog holds the flag `a` with a
role that resolves, and the direct message `FLAG{a}` submits nothing and grants
nothing. -/
theorem messageCreate_wrapped_flag_short :
    submission (str "FLAG\x7b" ++ str "a" ++ str "\x7d") = none
    ∧ messageCreate asciiEnv (configOf (webChallenge (str "a")))
        ⟨str "u", str "dm", str "FLAG\x7b" ++ str "a" ++ str "\x7d"⟩ = Outcome.done
    ∧ checkFlag asciiEnv (configOf (webChallenge (str "a")))
        ⟨str "u", str "dm", str "FLAG\x7b" ++ str "a" ++ str "\x7d"⟩ (str "a")
      = ⟨[Call.guildMemberRoleAdd (str "G") (str "u") (str "R1"),
          Call.channelMessageSend (str "dm") (str "You\x27ve unlocked the Web Solver role.")],
         false⟩ := by
  decide

/-- C5, amended: a direct message whose content has no valid brace pair (no `{`, or
a last `}` at most two bytes after the first `{`) is handled by the command dispatch
alone, and it issues no outbound call when its content does not start with the
command prefix, whatever the restricted channel. -/
theorem messageCreate_dm_without_braces (env : Env) (cfg : BotConfig) (m : MessageCreate)
    (hdm : env.channelType m.channelID = some channelTypeDM)
    (hno : index m.content 123 = -1 ∨ lastIndex m.content 125 ≤ index m.content 123 + 2) :
    submission m.content = none
    ∧ (m.authorID ≠ env.botID → messageCreate env cfg m = dispatch env cfg m)
    ∧ (hasPrefix m.content cfg.commandString = false →
        messageCreate env cfg m = Outcome.done) := by
  have hsub : submission m.content = none := by
    unfold submission
    simp only
    rw [if_neg]
    rintro ⟨h1, h2⟩
    rcases hno with h | h <;> omega
  refine ⟨hsub, ?_, ?_⟩
  · intro hauthor
    simp [messageCreate, hauthor, hdm, hsub]
  · intro hp
    by_cases hauthor : m.authorID = env.botID
    · simp [messageCreate, hauthor]
    · simp [messageCreate, hauthor, hdm, hsub, dispatch_of_no_command_string env cfg m hp]

theorem messageCreate_dm_without_braces_witness :
    messageCreate asciiEnv (configOf (webChallenge (str "s3cret")))
      ⟨str "u", str "dm", str "hello there"⟩ = Outcome.done :=
  (messageCreate_dm_without_braces asciiEnv (configOf (webChallenge (str "s3cret")))
    ⟨str "u", str "dm", str "hello there"⟩ (by decide) (by decide)).2.2 (by decide)

/-- C5 as stated fails: the direct message `!ping` has no brace at all, and with the
command prefix `!` the bot answers it with `Pong!`. -/
theorem messageCreate_dm_ping :
    asciiEnv.channelType (str "dm") = some channelTypeDM
    ∧ index (str "!ping") 123 = -1
    ∧ messageCreate asciiEnv (configOf (webChallenge (str "s3cret")))
        ⟨str "u", str "dm", str "!ping"⟩
      = ⟨[Call.channelMessageSend (str "dm") (str "Pong!")], false⟩ := by
  decide

/-- C6, amended: with a catalog holding one challenge whose flag is stored as `test`
(without the wrapper) and whose role key is `web`, the role map `web -> R1` and the
role name cache `R1 -> Web Solver`, a direct message `FLAG{test}` from a user other
than the bot makes `messageCreate` issue exactly one role grant of `R1` to that user
in the configured guild, then exactly one confirmation naming `Web Solver` in the
channel of the message, and nothing else, whatever the command prefix. -/
theorem messageCreate_end_to_end (env : Env) (cfg : BotConfig) (m : MessageCreate)
    (challenge : Challenge)
    (hlow : ∀ s : GoString, (∀ b ∈ s, b < 128) → env.toLower s = asciiToLower s)
    (hcatalog : cfg.challenges = [challenge])
    (hflag : challenge.flag = str "test") (hrole : challenge.role = str "web")
    (hmap : cfg.roles (str "web") = str "R1")
    (hcache : env.guildRoleNames (str "R1") = str "Web Solver")
    (hauthor : m.authorID ≠ env.botID)
    (hdm : env.channelType m.channelID = some channelTypeDM)
    (hcontent : m.content = str "FLAG\x7btest\x7d") :
    messageCreate env cfg m
      = ⟨[Call.guildMemberRoleAdd cfg.discordGuild m.authorID (str "R1"),
          Call.channelMessageSend m.channelID
            (str "You\x27ve unlocked the Web Solver role.")],
         false⟩ := by
  have hsub : submission m.content = some (str "test") := by rw [hcontent]; decide
  have hname : str "Web Solver" ≠ [] := by decide
  have hmsg : str "You\x27ve unlocked the " ++ str "Web Solver" ++ str " role."
      = str "You\x27ve unlocked the Web Solver role." := by decide
  simp [messageCreate, hauthor, hdm, hsub, dispatch_flag_test env cfg m hlow hcontent,
    checkFlag, hcatalog, checkFlagLoop, hflag, hrole, hmap, hcache, hname, hmsg,
    Outcome.andThen, Outcome.done]

theorem messageCreate_end_to_end_witness :
    messageCreate asciiEnv (configOf (webChallenge (str "test")))
      ⟨str "u", str "dm", str "FLAG\x7btest\x7d"⟩
      = ⟨[Call.guildMemberRoleAdd (str "G") (str "u") (str "R1"),
          Call.channelMessageSend (str "dm")
            (str "You\x27ve unlocked the Web Solver role.")],
         false⟩ :=
  messageCreate_end_to_end asciiEnv (configOf (webChallenge (str "test")))
    ⟨str "u", str "dm", str "FLAG\x7btest\x7d"⟩ (webChallenge (str "test"))
    (fun _ _ => rfl) rfl rfl rfl (by decide) (by decide) (by decide) (by decide) rfl

/-- C6 as stated fails: with the flag stored as `FLAG{test}`, the direct message
`FLAG{test}` submits `test`, which is not the stored flag, and nothing is issued. -/
theorem messageCreate_end_to_end_wrapped_flag :
    submission (str "FLAG\x7btest\x7d") = some (str "test")
    ∧ messageCreate asciiEnv (configOf (webChallenge (str "FLAG\x7btest\x7d")))
        ⟨str "u", str "dm", str "FLAG\x7btest\x7d"⟩ = Outcome.done := by
  decide

/-- C7: the outbound calls of `checkFlag` are, in catalog order, one pair per
challenge whose flag equals the submitted string and whose role resolves through the
role map and the role name cache to a non-empty name: the grant of that role id to
the author in the configured guild, then the confirmation naming the role in the
channel of the message.  No other challenge contributes a call, the handler does not
abort, and the calls depend on nothing but the configuration, the cache and the
message, so a second submission issues the same calls again. -/
theorem checkFlag_calls (env : Env) (cfg : BotConfig) (m : MessageCreate) (s : GoString) :
    checkFlag env cfg m s
      = ⟨(cfg.challenges.filter fun v =>
            decide (v.flag = s) && decide (env.guildRoleNames (cfg.roles v.role) ≠ [])).flatMap
          (fun v =>
            [Call.guildMemberRoleAdd cfg.discordGuild m.authorID (cfg.roles v.role),
             Call.channelMessageSend m.channelID
              (str "You\x27ve unlocked the " ++ env.guildRoleNames (cfg.roles v.role)
                ++ str " role.")]),
         false⟩
    ∧ ((checkFlag env cfg m s).andThen (checkFlag env cfg m s)).calls
        = (checkFlag env cfg m s).calls ++ (checkFlag env cfg m s).calls := by
  refine ⟨?_, andThen_calls_of_not_aborted _ _ rfl⟩
  unfold checkFlag
  rw [checkFlagLoop_eq]

/-- C10: with a non-empty restricted channel id, a message from a channel that is
not a direct channel and whose id differs from the restricted one makes
`messageCreate` return at once: no command is parsed and no outbound call is
issued, whatever the content. -/
theorem messageCreate_restricted_channel (env : Env) (cfg : BotConfig) (m : MessageCreate)
    (kind : Nat) (hkind : env.channelType m.channelID = some kind)
    (hguild : kind ≠ channelTypeDM) (hset : cfg.discordChannel ≠ [])
    (hother : cfg.discordChannel ≠ m.channelID) :
    messageCreate env cfg m = Outcome.done := by
  by_cases hauthor : m.authorID = env.botID
  · simp [messageCreate, hauthor]
  · simp [messageCreate, hauthor, hkind, hguild, hset, hother]

theorem messageCreate_restricted_channel_witness :
    messageCreate asciiEnv
        { configOf (webChallenge (str "s3cret")) with discordChannel := str "ctf" }
        ⟨str "u", str "general", str "!ping"⟩ = Outcome.done
    ∧ messageCreate asciiEnv
        { configOf (webChallenge (str "s3cret")) with discordChannel := str "ctf" }
        ⟨str "u", str "ctf", str "!ping"⟩
      = ⟨[Call.channelMessageSend (str "ctf") (str "Pong!")], false⟩ :=
  ⟨messageCreate_restricted_channel asciiEnv
      { configOf (webChallenge (str "s3cret")) with discordChannel := str "ctf" }
      ⟨str "u", str "general", str "!ping"⟩ 0 (by decide) (by decide) (by decide) (by decide),
    by decide⟩

/-- C9, amended: for every catalog and argument `a`, `getChallengeById` called with
the lower-cased `a` returns the first catalog entry, in catalog order, whose stored id
equals the lower-cased `a`, and the not-found error exactly when no entry has that
id, in which case the command `challenge a` sends nothing.  For the entry found,
whose colour in effect is empty or has, with its lower-casing, at least two bytes,
the command sends exactly one composite message with the name, role line,
description, link and colour of that entry: without a file when the entry names no
attachment, with the file (or without it when it does not open) when the resolved
path passes the containment check; when the resolved path fails that check the
handler aborts and sends nothing.  Two arguments with the same lower-casing are
handled alike, and an entry whose stored id differs from its own lower-casing is
returned for no argument. -/
theorem commandDisplayChallenge_lookup (env : Env) (cfg : BotConfig) (m : MessageCreate)
    (command a : GoString)
    (hidem : ∀ s, env.toLower (env.toLower s) = env.toLower s) :
    (∀ e, getChallengeById cfg.challenges (env.toLower a) = Except.ok e ↔
        ∃ pre post, cfg.challenges = pre ++ e :: post ∧ e.id = env.toLower a
          ∧ ∀ x ∈ pre, x.id ≠ env.toLower a)
    ∧ ((∃ msg, getChallengeById cfg.challenges (env.toLower a) = Except.error msg) ↔
        ∀ x ∈ cfg.challenges, x.id ≠ env.toLower a)
    ∧ ((∀ x ∈ cfg.challenges, x.id ≠ env.toLower a) →
        commandDisplayChallenge env cfg m [command, a] = Outcome.done)
    ∧ (∀ e c, getChallengeById cfg.challenges (env.toLower a) = Except.ok e →
        c = (if e.color = [] then cfg.defaultColor else e.color) →
        (c = [] ∨ (2 ≤ c.length ∧ 2 ≤ (env.toLower c).length)) →
        (e.fileName = [] ∨ e.fileType = [] →
          commandDisplayChallenge env cfg m [command, a]
            = ⟨[Call.channelMessageSendComplex m.channelID
                ⟨⟨e.name,
                  str "This Challenge unlocks the **" ++ env.guildRoleNames (cfg.roles e.role)
                    ++ str "** role.\n\n" ++ e.description,
                  e.link,
                  if slice (env.toLower c) 0 2 = str "0x"
                    then (parseUint (c.drop 2) 16 32).getD 0 else 0⟩,
                 none⟩], false⟩)
        ∧ (e.fileName ≠ [] → e.fileType ≠ [] →
            (filepathAbs env.wd (str "./files")).length
              < (filepathJoin [filepathAbs env.wd (str "./files"), e.fileName]).length →
            slice (filepathJoin [filepathAbs env.wd (str "./files"), e.fileName]) 0
                (filepathAbs env.wd (str "./files")).length
              = filepathAbs env.wd (str "./files") →
            commandDisplayChallenge env cfg m [command, a]
              = ⟨[Call.channelMessageSendComplex m.channelID
                  ⟨⟨e.name,
                    str "This Challenge unlocks the **" ++ env.guildRoleNames (cfg.roles e.role)
                      ++ str "** role.\n\n" ++ e.description,
                    e.link,
                    if slice (env.toLower c) 0 2 = str "0x"
                      then (parseUint (c.drop 2) 16 32).getD 0 else 0⟩,
                   if env.canOpen (filepathJoin [filepathAbs env.wd (str "./files"), e.fileName])
                     then some ⟨e.fileName, e.fileType,
                       filepathJoin [filepathAbs env.wd (str "./files"), e.fileName]⟩
                     else none⟩], false⟩)
        ∧ (e.fileName ≠ [] → e.fileType ≠ [] →
            ((filepathJoin [filepathAbs env.wd (str "./files"), e.fileName]).length
                ≤ (filepathAbs env.wd (str "./files")).length
              ∨ slice (filepathJoin [filepathAbs env.wd (str "./files"), e.fileName]) 0
                  (filepathAbs env.wd (str "./files")).length
                ≠ filepathAbs env.wd (str "./files")) →
            commandDisplayChallenge env cfg m [command, a] = Outcome.panic))
    ∧ (∀ b, env.toLower b = env.toLower a →
        commandDisplayChallenge env cfg m [command, b]
          = commandDisplayChallenge env cfg m [command, a])
    ∧ (∀ e, e.id ≠ env.toLower e.id →
        getChallengeById cfg.challenges (env.toLower a) ≠ Except.ok e) := by
  refine ⟨fun e => getChallengeById_ok_iff _ _ e, getChallengeById_error_iff _ _, ?_, ?_, ?_,
    ?_⟩
  · intro hnone
    obtain ⟨msg, hmsg⟩ := (getChallengeById_error_iff _ _).mpr hnone
    simp [commandDisplayChallenge, hmsg]
  · intro e c hfound hc hlen
    refine ⟨?_, ?_, ?_⟩
    · intro hfile
      simp only [commandDisplayChallenge, hfound, displayChallenge,
        embedColor_eq env cfg e.color c hc hlen, attachment_of_no_file env e hfile]
    · intro h1 h2 hlt hpre
      have hatt : attachment env e
          = Except.ok
              (if env.canOpen (filepathJoin [filepathAbs env.wd (str "./files"), e.fileName])
                then some ⟨e.fileName, e.fileType,
                  filepathJoin [filepathAbs env.wd (str "./files"), e.fileName]⟩
                else none) := by
        unfold attachment
        simp only
        rw [if_pos ⟨h1, h2⟩, if_neg]
        · split_ifs <;> rfl
        · rintro (h | h)
          · omega
          · exact h hpre
      simp only [commandDisplayChallenge, hfound, displayChallenge,
        embedColor_eq env cfg e.color c hc hlen, hatt]
    · intro h1 h2 hbad
      have hatt : attachment env e = Except.error () := by
        unfold attachment
        simp only
        rw [if_pos ⟨h1, h2⟩, if_pos hbad]
      simp only [commandDisplayChallenge, hfound, displayChallenge,
        embedColor_eq env cfg e.color c hc hlen, hatt]
  · intro b hb
    simp [commandDisplayChallenge, hb]
  · intro e hne hok
    obtain ⟨_, _, _, hid, _⟩ := (getChallengeById_ok_iff _ _ e).mp hok
    apply hne
    rw [hid, hidem]

theorem commandDisplayChallenge_lookup_witness :
    commandDisplayChallenge asciiEnv (configOf (webChallenge (str "s3cret")))
        ⟨str "u", str "general", []⟩ [str "challenge", str "WEB1"]
      = ⟨[Call.channelMessageSendComplex (str "general")
            ⟨⟨str "Web One",
              str "This Challenge unlocks the **Web Solver** role.\n\nFind the hidden page.",
              [], 0⟩, none⟩], false⟩
    ∧ commandDisplayChallenge asciiEnv
        (configOf { webChallenge (str "s3cret") with id := str "Web1" })
        ⟨str "u", str "general", []⟩ [str "challenge", str "Web1"] = Outcome.done := by
  have h := commandDisplayChallenge_lookup asciiEnv (configOf (webChallenge (str "s3cret")))
    ⟨str "u", str "general", []⟩ (str "challenge") (str "WEB1") asciiToLower_idem
  have h2 := commandDisplayChallenge_lookup asciiEnv
    (configOf { webChallenge (str "s3cret") with id := str "Web1" })
    ⟨str "u", str "general", []⟩ (str "challenge") (str "Web1") asciiToLower_idem
  constructor
  · rw [(h.2.2.2.1 (webChallenge (str "s3cret")) [] rfl rfl (Or.inl rfl)).1 (Or.inl rfl)]
    decide
  · exact h2.2.2.1 (by decide)

/-- C9 as stated fails: the entry `web1` is found for the argument `web1`, its
attachment `../../etc/passwd` resolves outside the base directory, and the handler
aborts without displaying the entry. -/
theorem commandDisplayChallenge_found_not_displayed :
    getChallengeById
        (configOf { webChallenge (str "s3cret") with
          fileName := str "../../etc/passwd", fileType := str "text/plain" }).challenges
        (asciiEnv.toLower (str "web1"))
      = Except.ok { webChallenge (str "s3cret") with
          fileName := str "../../etc/passwd", fileType := str "text/plain" }
    ∧ commandDisplayChallenge asciiEnv
        (configOf { webChallenge (str "s3cret") with
          fileName := str "../../etc/passwd", fileType := str "text/plain" })
        ⟨str "u", str "general", []⟩ [str "challenge", str "web1"]
      = ⟨[], true⟩ :=
  ⟨rfl, by decide⟩

/-- C2, amended: in `commandHint`, for a challenge found with `N ≥ 1` hints, the
handler does not abort and never indexes out of range; it opens the direct channel
of the author and, when that succeeds, sends there exactly one message, `Hint i of N
for <name>` followed by the `i`-th hint text wrapped in `||...||`, and nothing else.
The number `i` is 1 when the token is absent, is not a decimal integer, or is a
decimal integer outside the 64-bit range `[-2^63, 2^63)`; it is `min(max(n, 1), N)`
when the token is a decimal integer `n` with `-2^63 < n < 2^63`. -/
theorem commandHint_clamp (env : Env) (cfg : BotConfig) (m : MessageCreate)
    (command arg id : GoString) (rest : List GoString) (challenge : Challenge)
    (hwords : split 32 (env.toLower arg) = id :: rest)
    (hfound : getChallengeById cfg.challenges id = Except.ok challenge)
    (hhints : 1 ≤ challenge.hints.length) :
    ∃ (i : Nat) (hint : GoString),
      1 ≤ i ∧ i ≤ challenge.hints.length ∧ challenge.hints.get? (i - 1) = some hint
      ∧ commandHint env cfg m [command, arg]
          = ⟨Call.userChannelCreate m.authorID ::
              (match env.userChannelCreate m.authorID with
                | some cid =>
                  [Call.channelMessageSend cid
                    (str "Hint " ++ decimal i ++ str " of " ++ decimal challenge.hints.length
                      ++ str " for " ++ challenge.name ++ str "\n||" ++ hint ++ str "||")]
                | none => []),
             false⟩
      ∧ (rest = [] → i = 1)
      ∧ (∀ token tail, rest = token :: tail →
          (decimalValue token = none → i = 1)
          ∧ (∀ n, decimalValue token = some n → n < -(2 : Int) ^ 63 ∨ (2 : Int) ^ 63 ≤ n →
              i = 1)
          ∧ (∀ n, decimalValue token = some n → -(2 : Int) ^ 63 < n → n < (2 : Int) ^ 63 →
              (i : Int) = min (max n 1) challenge.hints.length)) := by
  obtain ⟨hlo, hhi⟩ := hintIndex_range (id :: rest) challenge.hints.length hhints
  have hnat : (hintIndex (id :: rest) challenge.hints.length).toNat < challenge.hints.length := by
    omega
  have hcast : hintIndex (id :: rest) challenge.hints.length + 1
      = (((hintIndex (id :: rest) challenge.hints.length).toNat + 1 : Nat) : Int) := by
    omega
  have hrun : commandHint env cfg m [command, arg]
      = sendDM env m.authorID
          (str "Hint " ++ decimal ((hintIndex (id :: rest) challenge.hints.length).toNat + 1)
            ++ str " of " ++ decimal challenge.hints.length
            ++ str " for " ++ challenge.name ++ str "\n||"
            ++ challenge.hints.get ⟨_, hnat⟩ ++ str "||") := by
    have hne : challenge.hints.length ≠ 0 := by omega
    have hin : ¬(hintIndex (id :: rest) challenge.hints.length < 0
        ∨ hintIndex (id :: rest) challenge.hints.length ≥ challenge.hints.length) := by omega
    simp only [commandHint, hwords, hfound, if_neg hne, if_neg hin, List.get?_eq_get hnat,
      hcast, decimalInt_natCast]
  refine ⟨(hintIndex (id :: rest) challenge.hints.length).toNat + 1,
    challenge.hints.get ⟨_, hnat⟩, by omega, by omega, ?_, hrun.trans (sendDM_eq _ _ _), ?_, ?_⟩
  · simp only [Nat.add_sub_cancel]
    exact List.get?_eq_get hnat
  · intro hrest
    subst hrest
    have : hintIndex [id] challenge.hints.length = 0 := by
      unfold hintIndex
      simp only
      split_ifs <;> omega
    rw [this]
    rfl
  · intro token tail hrest
    subst hrest
    refine ⟨?_, ?_, ?_⟩
    · intro hnone
      have : atoi token = none := by simp [atoi, hnone]
      rw [hintIndex_of_atoi_none id token tail _ hhints this]
      rfl
    · intro n hn hout
      have : atoi token = none := by
        simp only [atoi, hn]
        rw [if_neg]
        omega
      rw [hintIndex_of_atoi_none id token tail _ hhints this]
      rfl
    · intro n hn hmin hmax
      have : atoi token = some n := by
        simp only [atoi, hn]
        rw [if_pos]
        omega
      rw [← hintIndex_of_atoi_some id token tail _ n hhints this hmin hmax]
      omega

theorem commandHint_clamp_witness :
    commandHint asciiEnv (configOf (webChallenge (str "s3cret")))
        ⟨str "u", str "general", []⟩ [str "hint", str "web1 2"]
      = ⟨[Call.userChannelCreate (str "u"),
          Call.channelMessageSend (str "dm") (str "Hint 2 of 3 for Web One\n||closer||")],
         false⟩ := by
  obtain ⟨i, hint, _, _, hget, hrun, _, htoken⟩ :=
    commandHint_clamp asciiEnv (configOf (webChallenge (str "s3cret")))
      ⟨str "u", str "general", []⟩ (str "hint") (str "web1 2") (str "web1") [str "2"]
      (webChallenge (str "s3cret")) (by decide) rfl (by decide)
  have hi : (i : Int) = min (max 2 1) (webChallenge (str "s3cret")).hints.length :=
    (htoken (str "2") [] rfl).2.2 2 (by decide) (by decide) (by decide)
  have hi2 : i = 2 := by
    have : (webChallenge (str "s3cret")).hints.length = 3 := rfl
    rw [this] at hi
    omega
  subst hi2
  have hhint : hint = str "closer" := by
    have : (webChallenge (str "s3cret")).hints.get? (2 - 1) = some (str "closer") := rfl
    rw [this] at hget
    exact (Option.some.inj hget).symm
  subst hhint
  rw [hrun]
  decide

/-- C2 as stated fails for a decimal integer beyond the range of `int`: the token
`9223372036854775808` writes `2^63`, for which `min(max(n, 1), 3)` is 3, and the
handler delivers hint 1 of 3. -/
theorem commandHint_token_beyond_int :
    decimalValue (str "9223372036854775808") = some 9223372036854775808
    ∧ min (max (9223372036854775808 : Int) 1) 3 = 3
    ∧ commandHint asciiEnv (configOf (webChallenge (str "s3cret")))
        ⟨str "u", str "general", []⟩ [str "hint", str "web1 9223372036854775808"]
      = ⟨[Call.userChannelCreate (str "u"),
          Call.channelMessageSend (str "dm") (str "Hint 1 of 3 for Web One\n||look||")],
         false⟩ := by
  decide

/-- C8, amended: in `commandDisplayChallenge`, for a found challenge without an
attachment and the colour string `c` in effect (the challenge colour, or the default
colour when that is empty), when `c` is empty, or `c` and its lower-casing both have
at least two bytes, the handler does not abort and sends exactly one composite
message, without a file.  Its colour is the value of the bytes of `c` after the first
two when the lower-cased `c` starts with `0x` (so when `c` starts with `0x` or `0X`,
for ASCII lower-casing) and those bytes are one or more hexadecimal digits whose
value is below `2^32`; in every other case the colour is left at zero. -/
theorem commandDisplayChallenge_color (env : Env) (cfg : BotConfig) (m : MessageCreate)
    (command a : GoString) (challenge : Challenge) (c : GoString)
    (hfound : getChallengeById cfg.challenges (env.toLower a) = Except.ok challenge)
    (hfile : challenge.fileName = [] ∨ challenge.fileType = [])
    (hc : c = if challenge.color = [] then cfg.defaultColor else challenge.color)
    (hlen : c = [] ∨ (2 ≤ c.length ∧ 2 ≤ (env.toLower c).length)) :
    ∃ message,
      commandDisplayChallenge env cfg m [command, a]
        = ⟨[Call.channelMessageSendComplex m.channelID message], false⟩
      ∧ message.file = none
      ∧ message.embed.title = challenge.name
      ∧ message.embed.color
          = (if slice (env.toLower c) 0 2 = str "0x"
              then (parseUint (c.drop 2) 16 32).getD 0 else 0)
      ∧ (∀ v, parseUint (c.drop 2) 16 32 = some v ↔
          c.drop 2 ≠ [] ∧ digitsValue 16 0 (c.drop 2) = some v ∧ v < 2 ^ 32)
      ∧ (env.toLower c = asciiToLower c →
          (slice (env.toLower c) 0 2 = str "0x" ↔
            ∃ digits, c = 48 :: 120 :: digits ∨ c = 48 :: 88 :: digits)) := by
  refine ⟨⟨⟨challenge.name,
      str "This Challenge unlocks the **" ++ env.guildRoleNames (cfg.roles challenge.role)
        ++ str "** role.\n\n" ++ challenge.description,
      challenge.link,
      if slice (env.toLower c) 0 2 = str "0x"
        then (parseUint (c.drop 2) 16 32).getD 0 else 0⟩, none⟩,
    ?_, rfl, rfl, rfl, fun v => parseUint_eq_some_iff _ 16 32 v, ?_⟩
  · simp only [commandDisplayChallenge, hfound, displayChallenge,
      embedColor_eq env cfg challenge.color c hc hlen, attachment_of_no_file env challenge hfile]
  · intro h
    rw [h]
    exact asciiToLower_hex_marker c

theorem commandDisplayChallenge_color_witness :
    ∃ message,
      commandDisplayChallenge asciiEnv
          (configOf { webChallenge (str "s3cret") with color := str "0xFF0000" })
          ⟨str "u", str "general", []⟩ [str "challenge", str "web1"]
        = ⟨[Call.channelMessageSendComplex (str "general") message], false⟩
      ∧ message.file = none
      ∧ message.embed.color = 16711680 := by
  obtain ⟨message, hrun, hfile, _, hcolor, _, _⟩ :=
    commandDisplayChallenge_color asciiEnv
      (configOf { webChallenge (str "s3cret") with color := str "0xFF0000" })
      ⟨str "u", str "general", []⟩ (str "challenge") (str "web1")
      { webChallenge (str "s3cret") with color := str "0xFF0000" } (str "0xFF0000")
      rfl (Or.inl rfl) rfl (Or.inr (by decide))
  refine ⟨message, hrun, hfile, ?_⟩
  rw [hcolor]
  decide

/-- C8 as stated fails twice.  The colour `0XFF0000` is not `0x` followed by
hexadecimal digits, and the colour 16711680 is set for it; the colour `x`, of one
byte, makes the handler panic before it sends anything. -/
theorem commandDisplayChallenge_color_upper_marker :
    commandDisplayChallenge asciiEnv
        (configOf { webChallenge (str "s3cret") with color := str "0XFF0000" })
        ⟨str "u", str "general", []⟩ [str "challenge", str "web1"]
      = ⟨[Call.channelMessageSendComplex (str "general")
            ⟨⟨str "Web One",
              str "This Challenge unlocks the **Web Solver** role.\n\nFind the hidden page.",
              [], 16711680⟩, none⟩], false⟩
    ∧ commandDisplayChallenge asciiEnv
        (configOf { webChallenge (str "s3cret") with color := str "x" })
        ⟨str "u", str "general", []⟩ [str "challenge", str "web1"]
      = Outcome.panic := by
  decide

/-- C1 at the failing input: with base directory `/srv/files`, the file name
`../files-old/secret.txt` resolves to `/srv/files-old/secret.txt`, a path outside the
base directory that still starts with the bytes of the base path; the handler does
not abort and attaches that file.  The file name `../../etc/passwd` is rejected and
`handout.zip` is accepted. -/
theorem commandDisplayChallenge_sibling_directory :
    filepathAbs asciiEnv.wd (str "./files") = str "/srv/files"
    ∧ filepathJoin [str "/srv/files", str "../files-old/secret.txt"]
        = str "/srv/files-old/secret.txt"
    ∧ hasPrefix (str "/srv/files-old/secret.txt") (str "/srv/files/") = false
    ∧ commandDisplayChallenge asciiEnv
        (configOf { webChallenge (str "s3cret") with
          fileName := str "../files-old/secret.txt", fileType := str "text/plain" })
        ⟨str "u", str "general", []⟩ [str "challenge", str "web1"]
      = ⟨[Call.channelMessageSendComplex (str "general")
            ⟨⟨str "Web One",
              str "This Challenge unlocks the **Web Solver** role.\n\nFind the hidden page.",
              [], 0⟩,
             some ⟨str "../files-old/secret.txt", str "text/plain",
               str "/srv/files-old/secret.txt"⟩⟩], false⟩
    ∧ commandDisplayChallenge asciiEnv
        (configOf { webChallenge (str "s3cret") with
          fileName := str "../../etc/passwd", fileType := str "text/plain" })
        ⟨str "u", str "general", []⟩ [str "challenge", str "web1"]
      = Outcome.panic
    ∧ (commandDisplayChallenge asciiEnv
        (configOf { webChallenge (str "s3cret") with
          fileName := str "handout.zip", fileType := str "application/zip" })
        ⟨str "u", str "general", []⟩ [str "challenge", str "web1"]).aborted = false := by
  decide

/-! ## Further properties of the handlers -/

/-- A challenge without hints gets the private notice `[<name>] Has no hints.`,
whatever follows the id in the argument. -/
theorem commandHint_no_hints (env : Env) (cfg : BotConfig) (m : MessageCreate)
    (command arg id : GoString) (rest : List GoString) (challenge : Challenge)
    (hwords : split 32 (env.toLower arg) = id :: rest)
    (hfound : getChallengeById cfg.challenges id = Except.ok challenge)
    (hhints : challenge.hints = []) :
    commandHint env cfg m [command, arg]
      = ⟨Call.userChannelCreate m.authorID ::
          (match env.userChannelCreate m.authorID with
            | some cid =>
              [Call.channelMessageSend cid (str "[" ++ challenge.name ++ str "] Has no hints.")]
            | none => []),
         false⟩ := by
  rw [← sendDM_eq]
  simp [commandHint, hwords, hfound, hhints]

theorem commandHint_no_hints_witness :
    commandHint asciiEnv (configOf { webChallenge (str "s3cret") with hints := [] })
        ⟨str "u", str "general", []⟩ [str "hint", str "web1 7"]
      = ⟨[Call.userChannelCreate (str "u"),
          Call.channelMessageSend (str "dm") (str "[Web One] Has no hints.")], false⟩ := by
  rw [commandHint_no_hints asciiEnv (configOf { webChallenge (str "s3cret") with hints := [] })
    ⟨str "u", str "general", []⟩ (str "hint") (str "web1 7") (str "web1") [str "7"]
    { webChallenge (str "s3cret") with hints := [] } (by decide) rfl rfl]
  decide

/-- The token `-9223372036854775808` is the least `int`: subtracting one wraps around
to the greatest `int`, and the handler delivers the last hint instead of the first. -/
theorem commandHint_least_int_token :
    decimalValue (str "-9223372036854775808") = some (-9223372036854775808)
    ∧ wrapInt64 (-9223372036854775808 - 1) = 9223372036854775807
    ∧ commandHint asciiEnv (configOf (webChallenge (str "s3cret")))
        ⟨str "u", str "general", []⟩ [str "hint", str "web1 -9223372036854775808"]
      = ⟨[Call.userChannelCreate (str "u"),
          Call.channelMessageSend (str "dm") (str "Hint 3 of 3 for Web One\n||deeper||")],
         false⟩ := by
  decide

/-- A direct message is still parsed as a command after its flag was checked: the
content `!ping {ab}` submits `ab` and is then answered with `Pong!`. -/
theorem messageCreate_dm_flag_then_command :
    messageCreate asciiEnv (configOf (webChallenge (str "ab")))
        ⟨str "u", str "dm", str "!ping \x7bab\x7d"⟩
      = ⟨[Call.guildMemberRoleAdd (str "G") (str "u") (str "R1"),
          Call.channelMessageSend (str "dm") (str "You\x27ve unlocked the Web Solver role."),
          Call.channelMessageSend (str "dm") (str "Pong!")], false⟩ := by
  decide

end ChallengerBot
